import Mathlib

/-!
Shallow embedding of the tabular join/filter engine of src/main.js.

JavaScript objects keyed by strings are modelled as association lists
`List (String × α)` with first-match lookup (`getKey`, an absent key reads as
`undefined`, i.e. `none`) and replace-or-append assignment (`setKey`).
A CSV field value is a `String`; a value that may be `undefined` is an
`Option String` (`none` = `undefined`); JS strict equality `===` between two
such values is decidable equality on `Option String` (`undefined === undefined`
is true, `undefined === "s"` is false).
-/

namespace Slcsp

/-- A parsed CSV row object: string keys mapped to string field values. -/
abbrev Record : Type := List (String × String)

/-- JS object property read: the value at the first matching key, `none`
(undefined) when the key is absent. -/
def getKey {α : Type} : List (String × α) → String → Option α
  | [], _ => none
  | p :: t, k => if p.1 == k then some p.2 else getKey t k

/-- JS object property write `obj[k] = v`: overwrite the existing key in place
(insertion order kept) or append a fresh key at the end. -/
def setKey {α : Type} : List (String × α) → String → α → List (String × α)
  | [], k, v => [(k, v)]
  | p :: t, k, v => if p.1 == k then (k, v) :: t else p :: setKey t k v

/-- src/main.js line 12: `const trueFn = _ => true`. -/
def trueFn : Record → Bool := fun _ => true

/-- JS `line.trim()`: drop whitespace from both ends. -/
def jsTrim (s : String) : String :=
  String.mk (((s.data.dropWhile Char.isWhitespace).reverse.dropWhile Char.isWhitespace).reverse)

/-- Split a character list at every separator, keeping empty segments; the
empty list gives one empty segment, as JS `"".split(",")` gives `[""]`. -/
def splitCharList (c : Char) : List Char → List (List Char)
  | [] => [[]]
  | x :: t =>
    match splitCharList c t with
    | [] => []
    | seg :: rest => if x = c then [] :: seg :: rest else (x :: seg) :: rest

/-- JS `s.split(c)` for a one-character separator with no quoting/escaping. -/
def jsSplit (s : String) (c : Char) : List String :=
  (splitCharList c s.data).map String.mk

/-- JS read `headers[i]` used as an object key: out-of-range array reads give
`undefined`, which property assignment coerces to the string "undefined". -/
def jsIndex (xs : List String) (i : Nat) : String :=
  (xs.get? i).getD "undefined"

/-- src/main.js line 43: `row.reduce((acc, val, i) => (acc[headers[i]] = val, acc), {})`. -/
def convertRowToObj (headers row : List String) : Record :=
  row.enum.foldl (fun acc p => setKey acc (jsIndex headers p.1) p.2) []

/-- src/main.js lines 46-48: returns the row when the filter accepts it,
`undefined` (`none`) otherwise. -/
def filterRowObj (filter : Record → Bool) (row : Record) : Option Record :=
  if filter row then some row else none

/-- src/main.js lines 73-75: a row passes when some filter set has every
`[key, val]` pair strictly equal to the row's value at that key. -/
def createQueryFilter (filterSets : List (List (String × Option String))) : Record → Bool :=
  fun row => filterSets.any (fun filterSet => filterSet.all (fun p => getKey row p.1 == p.2))

/-- src/main.js lines 57-59: `row => joins.map(join => [join, row[join]])`. -/
def createJoinMapper (joins : List String) : Record → List (String × Option String) :=
  fun row => joins.map (fun join => (join, getKey row join))

/-- src/main.js lines 124-126. -/
def createSimpleFilterSets (key val : String) : List (List (String × Option String)) :=
  [[(key, some val)]]

/-- The `{ headers: [], rows: [] }` sheet built by parseCSV. -/
structure Sheet where
  headers : List String
  rows : List Record
  deriving DecidableEq

/-- src/main.js lines 26-37: one step of the line handler. The first line
(empty `headers`) becomes the headers; later lines are trimmed, split on
commas, zipped into a Record and kept when the filter accepts them. -/
def processLine (filter : Record → Bool) (sheet : Sheet) (line : String) : Sheet :=
  let row := jsSplit (jsTrim line) ','
  if sheet.headers.length ≠ 0 then
    match filterRowObj filter (convertRowToObj sheet.headers row) with
    | some rowObj => { sheet with rows := sheet.rows ++ [rowObj] }
    | none => sheet
  else
    { sheet with headers := row }

/-- src/main.js lines 18-40 (parseCSV), with the stream of input lines made
explicit: fold the line handler over the lines; line 24 picks the filter
(`createQueryFilter` when `filterSets` is passed, else `trueFn`). -/
def parseCSVLines (lines : List String)
    (filterSets : Option (List (List (String × Option String)))) : Sheet :=
  let filter := match filterSets with
    | some fs => createQueryFilter fs
    | none => trueFn
  lines.foldl (processLine filter) { headers := [], rows := [] }

/-- The value stored under a step name in a merged row: the single seed record
of step 0, or the list of matched records of a later step. -/
inductive MVal where
  | seed (r : Record)
  | matches (rs : List Record)
  deriving DecidableEq

/-- A merged row: JS object from step name to seed record or match list. -/
abbrev MergedRow : Type := List (String × MVal)

/-- src/main.js line 117: `{ headers: {}, rows: [] }` accumulator shape. -/
structure MergedSheet where
  headers : List (String × List String)
  rows : List MergedRow
  deriving DecidableEq

/-- One entry of the `sheetQueries` argument of mergeSheets:
`{ sheet, joins, name }`. The last step passes no `joins` in the source; its
`joins` field is never read by the merge, so it is modelled as a plain list. -/
structure SheetQuery where
  sheet : Sheet
  joins : List String
  name : String
  deriving DecidableEq

/-- src/main.js lines 98-107: the filter built for one accumulated row from
the previous step's data: one conjunction group per prior record when
`row[prevName]` is an array, a single group when it is one record. The `none`
branch is unreachable from `mergeSheets` (the previous step's name is always a
key of the row); the JS code would throw there. -/
def joinRowFilter (prev : SheetQuery) (row : MergedRow) : Record → Bool :=
  match getKey row prev.name with
  | some (MVal.matches rs) => createQueryFilter (rs.map (createJoinMapper prev.joins))
  | some (MVal.seed r) => createQueryFilter [createJoinMapper prev.joins r]
  | none => fun _ => false

/-- src/main.js line 110: `{ ...row, [name]: sheet.rows.filter(filter) }`. -/
def joinRow (prev sq : SheetQuery) (row : MergedRow) : MergedRow :=
  setKey row sq.name (MVal.matches (sq.sheet.rows.filter (joinRowFilter prev row)))

/-- src/main.js lines 84-116: the body of the reduce, with the closed-over
`prevSheet` made an explicit state component (`none` before the first step). -/
def mergeStep (st : MergedSheet × Option SheetQuery) (sq : SheetQuery) :
    MergedSheet × Option SheetQuery :=
  let headers := setKey st.1.headers sq.name sq.sheet.headers
  match st.2 with
  | none =>
      ({ headers := headers, rows := sq.sheet.rows.map (fun r => [(sq.name, MVal.seed r)]) },
        some sq)
  | some prev =>
      ({ headers := headers, rows := st.1.rows.map (joinRow prev sq) }, some sq)

/-- src/main.js lines 82-118: fold the step function over the queries starting
from `{ headers: {}, rows: [] }` and no previous sheet. -/
def mergeSheets (sheetQueries : List SheetQuery) : MergedSheet :=
  (sheetQueries.foldl mergeStep ({ headers := [], rows := [] }, none)).1

/-! ### Association-list lemmas -/

theorem getKey_setKey_self {α : Type} (obj : List (String × α)) (k : String) (v : α) :
    getKey (setKey obj k v) k = some v := by
  induction obj with
  | nil => simp [getKey, setKey]
  | cons p t ih =>
    by_cases h : p.1 = k
    · simp [getKey, setKey, h]
    · simp [getKey, setKey, h, ih]

theorem getKey_setKey_ne {α : Type} (obj : List (String × α)) (k k' : String) (v : α)
    (h : k' ≠ k) : getKey (setKey obj k v) k' = getKey obj k' := by
  induction obj with
  | nil => simp [getKey, setKey, Ne.symm h]
  | cons p t ih =>
    by_cases hp : p.1 = k
    · simp [getKey, setKey, hp, Ne.symm h]
    · simp [getKey, setKey, hp, ih]

theorem setKey_of_not_mem {α : Type} (obj : List (String × α)) (k : String) (v : α)
    (h : k ∉ obj.map Prod.fst) : setKey obj k v = obj ++ [(k, v)] := by
  induction obj with
  | nil => simp [setKey]
  | cons p t ih =>
    simp only [List.map_cons, List.mem_cons, not_or] at h
    simp [setKey, Ne.symm h.1, ih h.2]

theorem keys_setKey_of_not_mem {α : Type} (obj : List (String × α)) (k : String) (v : α)
    (h : k ∉ obj.map Prod.fst) :
    (setKey obj k v).map Prod.fst = obj.map Prod.fst ++ [k] := by
  rw [setKey_of_not_mem obj k v h]
  simp

/-! ### Parser lemmas -/

theorem splitCharList_ne_nil (c : Char) (l : List Char) : splitCharList c l ≠ [] := by
  induction l with
  | nil => simp [splitCharList]
  | cons x t ih =>
    rw [splitCharList]
    cases h : splitCharList c t with
    | nil => exact absurd h ih
    | cons seg rest =>
      by_cases hx : x = c <;> simp [hx]

theorem jsSplit_ne_nil (s : String) (c : Char) : jsSplit s c ≠ [] := by
  rw [jsSplit]
  simpa using splitCharList_ne_nil c s.data

theorem filterMap_eq_map_of_some {α β : Type} (f : α → β) (l : List α) :
    l.filterMap (fun a => some (f a)) = l.map f := by
  induction l with
  | nil => rfl
  | cons a t ih => simp [List.filterMap_cons, ih]

/-- Once the headers are set, folding the line handler appends exactly the
records the filter accepts, in line order. -/
theorem foldl_processLine (filter : Record → Bool) (ls : List String) (sheet : Sheet)
    (h : sheet.headers.length ≠ 0) :
    ls.foldl (processLine filter) sheet =
      { headers := sheet.headers,
        rows := sheet.rows ++ ls.filterMap (fun l =>
          filterRowObj filter (convertRowToObj sheet.headers (jsSplit (jsTrim l) ','))) } := by
  induction ls generalizing sheet with
  | nil => simp
  | cons l t ih =>
    rw [List.foldl_cons]
    have hstep : processLine filter sheet l =
        match filterRowObj filter (convertRowToObj sheet.headers (jsSplit (jsTrim l) ',')) with
        | some rowObj => { sheet with rows := sheet.rows ++ [rowObj] }
        | none => sheet := by
      simp [processLine, h]
    rw [hstep]
    cases hopt : filterRowObj filter (convertRowToObj sheet.headers (jsSplit (jsTrim l) ',')) with
    | none =>
      rw [ih sheet h]
      simp [List.filterMap_cons, hopt]
    | some r =>
      rw [ih { sheet with rows := sheet.rows ++ [r] } (by simpa using h)]
      simp [List.filterMap_cons, hopt]

/-- A non-empty line list parses to first-line headers plus the filtered zip
of the remaining lines. -/
theorem foldl_processLine_cons (filter : Record → Bool) (first : String) (rest : List String) :
    (first :: rest).foldl (processLine filter) { headers := [], rows := [] } =
      { headers := jsSplit (jsTrim first) ',',
        rows := rest.filterMap (fun l =>
          filterRowObj filter
            (convertRowToObj (jsSplit (jsTrim first) ',') (jsSplit (jsTrim l) ','))) } := by
  rw [List.foldl_cons,
    show processLine filter { headers := [], rows := [] } first =
        { headers := jsSplit (jsTrim first) ',', rows := [] } from by simp [processLine],
    foldl_processLine filter rest _ (by simpa using jsSplit_ne_nil (jsTrim first) ',')]
  simp

/-! ### Lemmas about the row-to-object zip -/

theorem getLast?_some_of_ne_nil {α : Type} (l : List α) (h : l ≠ []) :
    ∃ v, l.getLast? = some v := by
  induction l with
  | nil => exact absurd rfl h
  | cons a t ih =>
    cases t with
    | nil => exact ⟨a, rfl⟩
    | cons b t2 =>
      obtain ⟨v, hv⟩ := ih (by simp)
      exact ⟨v, by rw [List.getLast?_cons_cons]; exact hv⟩

theorem getLast?_enumFrom_snd {α : Type} (l : List α) (n : Nat) :
    ((l.enumFrom n).getLast?).map Prod.snd = l.getLast? := by
  induction l generalizing n with
  | nil => rfl
  | cons x t ih =>
    cases t with
    | nil => rfl
    | cons y t2 =>
      rw [show (x :: y :: t2).enumFrom n = (n, x) :: (y :: t2).enumFrom (n + 1) from rfl,
        show (y :: t2).enumFrom (n + 1) = (n + 1, y) :: t2.enumFrom (n + 2) from rfl,
        List.getLast?_cons_cons, List.getLast?_cons_cons,
        ← show (y :: t2).enumFrom (n + 1) = (n + 1, y) :: t2.enumFrom (n + 2) from rfl,
        ih (n + 1)]

/-- Folding object writes whose keys all avoid `k` leaves the value at `k`
untouched. -/
theorem getKey_foldl_setKey_of_ne (headers : List String) (k : String)
    (pairs : List (Nat × String)) (init : Record)
    (h : ∀ p ∈ pairs, jsIndex headers p.1 ≠ k) :
    getKey (pairs.foldl (fun acc p => setKey acc (jsIndex headers p.1) p.2) init) k =
      getKey init k := by
  induction pairs generalizing init with
  | nil => rfl
  | cons p t ih =>
    rw [List.foldl_cons, ih _ (fun q hq => h q (List.mem_cons_of_mem p hq)),
      getKey_setKey_ne _ _ _ _ (Ne.symm (h p (List.mem_cons_self p t)))]

/-- Folding object writes that all target the key `k` leaves the last written
value at `k`. -/
theorem getKey_foldl_setKey_of_all (headers : List String) (k : String)
    (pairs : List (Nat × String)) (init : Record) (q : Nat × String)
    (hall : ∀ p ∈ pairs, jsIndex headers p.1 = k)
    (hlast : pairs.getLast? = some q) :
    getKey (pairs.foldl (fun acc p => setKey acc (jsIndex headers p.1) p.2) init) k =
      some q.2 := by
  induction pairs generalizing init with
  | nil => exact absurd hlast (by simp)
  | cons p t ih =>
    cases t with
    | nil =>
      have hq : p = q := by simpa using hlast
      subst hq
      rw [List.foldl_cons, List.foldl_nil, hall p (List.mem_cons_self p []),
        getKey_setKey_self]
    | cons p2 t2 =>
      rw [List.foldl_cons]
      exact ih _ (fun r hr => hall r (List.mem_cons_of_mem p hr))
        (by rwa [List.getLast?_cons_cons] at hlast)

/-! ### Claim theorems: the query filter -/

/-- C1: for every record and every non-empty list of conjunction groups,
the predicate built by createQueryFilter accepts the record iff some group has
every (column, value) pair strictly equal to the record's value at that
column (exact, case-sensitive equality on optional string values). -/
theorem createQueryFilter_dnf (filterSets : List (List (String × Option String)))
    (hne : filterSets ≠ []) (row : Record) :
    createQueryFilter filterSets row = true ↔
      ∃ filterSet ∈ filterSets, ∀ p ∈ filterSet, getKey row p.1 = p.2 := by
  simp [createQueryFilter, List.any_eq_true, List.all_eq_true]

theorem createQueryFilter_dnf_witness :
    ([[("a", some "1")], [("a", some "2")]] : List (List (String × Option String))) ≠ [] ∧
      (createQueryFilter [[("a", some "1")], [("a", some "2")]] [("a", "2"), ("b", "3")] = true ↔
        ∃ filterSet ∈ [[("a", some "1")], [("a", some "2")]],
          ∀ p ∈ filterSet, getKey [("a", "2"), ("b", "3")] p.1 = p.2) :=
  ⟨by decide, createQueryFilter_dnf _ (by decide) _⟩

/-- C9: a filter-set list containing an empty conjunction group accepts every
record: the universal check over the empty group holds vacuously, so [[]] is
an accept-all predicate. -/
theorem createQueryFilter_empty_group (filterSets : List (List (String × Option String)))
    (h : [] ∈ filterSets) (row : Record) :
    createQueryFilter filterSets row = true := by
  simp only [createQueryFilter, List.any_eq_true]
  exact ⟨[], h, by simp⟩

theorem createQueryFilter_empty_group_witness :
    createQueryFilter ([[]] : List (List (String × Option String))) [("a", "1")] = true :=
  createQueryFilter_empty_group [[]] (by decide) [("a", "1")]

/-- C2: an empty filter-set list builds the always-false predicate, while a
parse invoked without a filter argument uses the always-true predicate and
keeps every record; the concrete two-line input shows the two are not
equivalent. -/
theorem emptyFilterSets_vs_absent :
    (∀ row : Record, createQueryFilter [] row = false) ∧
    (∀ (first : String) (rest : List String),
      (parseCSVLines (first :: rest) none).rows =
        rest.map (fun l =>
          convertRowToObj (jsSplit (jsTrim first) ',') (jsSplit (jsTrim l) ','))) ∧
    (parseCSVLines ["a", "1"] (some [])).rows = [] ∧
    (parseCSVLines ["a", "1"] none).rows = [[("a", "1")]] := by
  refine ⟨fun row => rfl, ?_, by decide, by decide⟩
  intro first rest
  have h2 : parseCSVLines (first :: rest) none =
      (first :: rest).foldl (processLine trueFn) { headers := [], rows := [] } := rfl
  rw [h2, foldl_processLine_cons]
  simp [filterRowObj, trueFn, filterMap_eq_map_of_some]

/-- C7: parsing trims each line, splits on commas with no quoting, makes the
first line the headers, zips every later line positionally into a Record,
keeps exactly the records the supplied predicate accepts (all of them when no
predicate is given), preserving line order; header line a,b with data line 1,2
gives headers [a, b] and one row mapping a to 1 and b to 2. -/
theorem parseCSV_algorithm :
    (∀ (first : String) (rest : List String)
        (filterSets : Option (List (List (String × Option String)))),
      parseCSVLines (first :: rest) filterSets =
        { headers := jsSplit (jsTrim first) ',',
          rows := rest.filterMap (fun l =>
            filterRowObj
              (match filterSets with
                | some fs => createQueryFilter fs
                | none => trueFn)
              (convertRowToObj (jsSplit (jsTrim first) ',') (jsSplit (jsTrim l) ','))) }) ∧
    parseCSVLines ["a,b", "1,2"] none =
      { headers := ["a", "b"], rows := [[("a", "1"), ("b", "2")]] } := by
  constructor
  · intro first rest filterSets
    exact foldl_processLine_cons _ first rest
  · decide

/-- C10: merging an empty list of join steps returns the initial accumulator:
empty headers mapping and empty row list. -/
theorem mergeSheets_nil :
    (mergeSheets []).headers = [] ∧ (mergeSheets []).rows = [] :=
  ⟨rfl, rfl⟩

/-- C5 counterexample: with header line a and data fields 1,2 the extra field
is not dropped: `acc[headers[1]] = "2"` coerces the undefined header to the
object key "undefined", so the record keeps the extra value under that key. -/
theorem convertRowToObj_extra_not_dropped :
    convertRowToObj ["a"] ["1", "2"] ≠ [("a", "1")] ∧
      getKey (convertRowToObj ["a"] ["1", "2"]) "undefined" = some "2" := by
  decide

/-- C5 amended: on a field-count mismatch no error is raised; missing fields
are simply absent (undefined on lookup), and all extra fields are written
under the single key "undefined" (the string coercion of the missing header),
the last extra value winning — rather than being dropped. -/
theorem convertRowToObj_mismatch (headers row : List String) :
    ("undefined" ∉ headers →
      getKey (convertRowToObj headers row) "undefined" =
        (row.drop headers.length).getLast?) ∧
    (∀ k, row.length ≤ headers.length → k ∈ headers.drop row.length →
      k ∉ headers.take row.length → getKey (convertRowToObj headers row) k = none) := by
  constructor
  · intro hu
    show getKey ((row.enumFrom 0).foldl _ []) "undefined" = _
    by_cases hle : row.length ≤ headers.length
    · rw [List.drop_eq_nil_of_le hle, List.getLast?_nil,
        getKey_foldl_setKey_of_ne headers "undefined" _ []]
      · rfl
      · intro p hp
        rw [List.mk_mem_enumFrom_iff_le_and_getElem?_sub] at hp
        have hlt : p.1 < row.length := by
          have := hp.2
          by_contra hge
          rw [List.getElem?_eq_none (by omega)] at this
          exact Option.noConfusion this
        have hlt2 : p.1 < headers.length := by omega
        intro hk
        rw [jsIndex, List.get?_eq_get hlt2] at hk
        simp only [Option.getD_some] at hk
        exact hu (hk ▸ List.get_mem headers p.1 hlt2)
    · push_neg at hle
      have hdrop : row.drop headers.length ≠ [] := by
        have : (row.drop headers.length).length = row.length - headers.length :=
          List.length_drop _ _
        intro hnil
        rw [hnil] at this
        simp at this
        omega
      obtain ⟨v, hv⟩ := getLast?_some_of_ne_nil _ hdrop
      obtain ⟨q, hq, hqv⟩ := Option.map_eq_some'.mp
        ((getLast?_enumFrom_snd (row.drop headers.length) headers.length).trans hv)
      have hsplit : row.enumFrom 0 =
          (row.take headers.length).enumFrom 0 ++
            (row.drop headers.length).enumFrom headers.length := by
        conv_lhs => rw [← List.take_append_drop headers.length row]
        rw [List.enumFrom_append]
        congr 2
        · simp [List.length_take]
          omega
      rw [hsplit, List.foldl_append, hv,
        getKey_foldl_setKey_of_all headers "undefined" _ _ q _ hq, hqv]
      intro p hp
      rw [List.mk_mem_enumFrom_iff_le_and_getElem?_sub] at hp
      rw [jsIndex, List.get?_eq_getElem?, List.getElem?_eq_none (by omega)]
      rfl
  · intro k hle hkdrop hktake
    show getKey ((row.enumFrom 0).foldl _ []) k = _
    rw [getKey_foldl_setKey_of_ne headers k _ []]
    · rfl
    · intro p hp
      rw [List.mk_mem_enumFrom_iff_le_and_getElem?_sub] at hp
      have hlt : p.1 < row.length := by
        have := hp.2
        by_contra hge
        rw [List.getElem?_eq_none (by omega)] at this
        exact Option.noConfusion this
      have hlt2 : p.1 < headers.length := by omega
      intro hk
      rw [jsIndex, List.get?_eq_get hlt2] at hk
      simp only [Option.getD_some] at hk
      apply hktake
      have htk : (headers.take row.length).get? p.1 = headers.get? p.1 := List.get?_take hlt
      have hlen : p.1 < (headers.take row.length).length := by
        rw [List.length_take]
        omega
      have hgt : (headers.take row.length).get ⟨p.1, hlen⟩ = headers.get ⟨p.1, hlt2⟩ := by
        have h1 := List.get?_eq_get hlen
        rw [htk, List.get?_eq_get hlt2] at h1
        exact (Option.some.inj h1).symm
      rw [← hk, ← hgt]
      exact List.get_mem _ _ _

/-! ### Merge lemmas -/

theorem mergeStep_some (acc : MergedSheet) (prev sq : SheetQuery) :
    mergeStep (acc, some prev) sq =
      ({ headers := setKey acc.headers sq.name sq.sheet.headers,
         rows := acc.rows.map (joinRow prev sq) }, some sq) := rfl

theorem mergeFold_rows_length (steps : List SheetQuery) (acc : MergedSheet)
    (prev : SheetQuery) :
    ((steps.foldl mergeStep (acc, some prev)).1).rows.length = acc.rows.length := by
  induction steps generalizing acc prev with
  | nil => rfl
  | cons sq rest ih =>
    rw [List.foldl_cons, mergeStep_some]
    rw [ih]
    simp

theorem mergeFold_keys (steps : List SheetQuery) (acc : MergedSheet) (prev : SheetQuery)
    (K : List String) (hnd : (K ++ steps.map SheetQuery.name).Nodup)
    (hK : ∀ row ∈ acc.rows, row.map Prod.fst = K) :
    ∀ row ∈ (steps.foldl mergeStep (acc, some prev)).1.rows,
      row.map Prod.fst = K ++ steps.map SheetQuery.name := by
  induction steps generalizing acc prev K with
  | nil => simpa using hK
  | cons sq rest ih =>
    rw [List.foldl_cons, mergeStep_some]
    have hnotmem : sq.name ∉ K := by
      intro hmem
      rcases List.nodup_append.mp hnd with ⟨-, -, hdisj⟩
      exact hdisj hmem (by simp)
    have hmap : ∀ r ∈ acc.rows.map (joinRow prev sq),
        r.map Prod.fst = K ++ [sq.name] := by
      intro r hr
      obtain ⟨r0, hr0, rfl⟩ := List.mem_map.mp hr
      rw [joinRow, keys_setKey_of_not_mem _ _ _ (by rw [hK r0 hr0]; exact hnotmem),
        hK r0 hr0]
    have hnd2 : ((K ++ [sq.name]) ++ rest.map SheetQuery.name).Nodup := by
      rw [List.append_assoc, List.singleton_append]
      simpa using hnd
    intro row hrow
    have := ih _ sq (K ++ [sq.name]) hnd2 hmap row hrow
    rw [this, List.append_assoc, List.singleton_append, List.map_cons]

theorem mergeFold_vals (steps : List SheetQuery) (acc : MergedSheet) (prev : SheetQuery)
    (N : List String)
    (hN : ∀ row ∈ acc.rows, ∀ n ∈ N, ∃ l, getKey row n = some (MVal.matches l)) :
    ∀ row ∈ (steps.foldl mergeStep (acc, some prev)).1.rows,
      ∀ n ∈ N ++ steps.map SheetQuery.name,
        ∃ l, getKey row n = some (MVal.matches l) := by
  induction steps generalizing acc prev N with
  | nil => simpa using hN
  | cons sq rest ih =>
    rw [List.foldl_cons, mergeStep_some]
    have hstep : ∀ r ∈ acc.rows.map (joinRow prev sq), ∀ n ∈ N ++ [sq.name],
        ∃ l, getKey r n = some (MVal.matches l) := by
      intro r hr n hn
      obtain ⟨r0, hr0, rfl⟩ := List.mem_map.mp hr
      rw [joinRow]
      by_cases hcase : n = sq.name
      · subst hcase
        exact ⟨_, getKey_setKey_self _ _ _⟩
      · rw [getKey_setKey_ne _ _ _ _ hcase]
        rcases List.mem_append.mp hn with h | h
        · exact hN r0 hr0 n h
        · exact absurd (by simpa using h) hcase
    intro row hrow n hn
    apply ih _ sq (N ++ [sq.name]) hstep row hrow
    rw [List.append_assoc, List.singleton_append]
    exact hn

/-! ### Claim theorems: the sheet merger -/

/-- C3: at a step whose previous value is a list of records, the filter is the
disjunction of one conjunction group per prior matched record (each group the
prior record's join-column pairs), the step maps the row to a shallow copy
carrying the filtered table under the step's name, and a candidate is included
exactly when it is a record of the step's table whose values at the previous
step's join columns equal those of at least one prior record. -/
theorem mergeStep_fanout (acc : MergedSheet) (prev sq : SheetQuery) (row : MergedRow)
    (rs : List Record) (hrow : row ∈ acc.rows)
    (hprev : getKey row prev.name = some (MVal.matches rs)) :
    joinRow prev sq row ∈ (mergeStep (acc, some prev) sq).1.rows ∧
    joinRowFilter prev row = createQueryFilter (rs.map (createJoinMapper prev.joins)) ∧
    getKey (joinRow prev sq row) sq.name =
      some (MVal.matches (sq.sheet.rows.filter (joinRowFilter prev row))) ∧
    ∀ cand : Record,
      cand ∈ sq.sheet.rows.filter (joinRowFilter prev row) ↔
        cand ∈ sq.sheet.rows ∧
          ∃ r ∈ rs, ∀ j ∈ prev.joins, getKey cand j = getKey r j := by
  have hfilter : joinRowFilter prev row =
      createQueryFilter (rs.map (createJoinMapper prev.joins)) := by
    unfold joinRowFilter
    rw [hprev]
  refine ⟨List.mem_map_of_mem _ hrow, hfilter, getKey_setKey_self _ _ _, ?_⟩
  intro cand
  rw [List.mem_filter, hfilter]
  simp only [createQueryFilter]
  constructor
  · rintro ⟨hc, hf⟩
    refine ⟨hc, ?_⟩
    obtain ⟨g, hg, hgt⟩ := List.any_eq_true.mp hf
    obtain ⟨r, hr, rfl⟩ := List.mem_map.mp hg
    refine ⟨r, hr, fun j hj => ?_⟩
    have := List.all_eq_true.mp hgt (j, getKey r j) (List.mem_map_of_mem _ hj)
    simpa using this
  · rintro ⟨hc, r, hr, hmatch⟩
    refine ⟨hc, List.any_eq_true.mpr
      ⟨createJoinMapper prev.joins r, List.mem_map_of_mem _ hr,
        List.all_eq_true.mpr fun p hp => ?_⟩⟩
    obtain ⟨j, hj, rfl⟩ := List.mem_map.mp hp
    simpa using hmatch j hj

def fanoutPrev : SheetQuery :=
  { sheet := { headers := [], rows := [] }, joins := ["k"], name := "p" }

def fanoutStep : SheetQuery :=
  { sheet := { headers := ["k"], rows := [[("k", "2")], [("k", "3")]] },
    joins := [], name := "q" }

def fanoutRow : MergedRow := [("p", MVal.matches [[("k", "1")], [("k", "2")]])]

def fanoutAcc : MergedSheet := { headers := [], rows := [fanoutRow] }

def fanoutPriors : List Record := [[("k", "1")], [("k", "2")]]

theorem mergeStep_fanout_witness :
    joinRow fanoutPrev fanoutStep fanoutRow ∈
      (mergeStep (fanoutAcc, some fanoutPrev) fanoutStep).1.rows ∧
    joinRowFilter fanoutPrev fanoutRow =
      createQueryFilter (fanoutPriors.map (createJoinMapper fanoutPrev.joins)) ∧
    getKey (joinRow fanoutPrev fanoutStep fanoutRow) fanoutStep.name =
      some (MVal.matches
        (fanoutStep.sheet.rows.filter (joinRowFilter fanoutPrev fanoutRow))) ∧
    ∀ cand : Record,
      cand ∈ fanoutStep.sheet.rows.filter (joinRowFilter fanoutPrev fanoutRow) ↔
        cand ∈ fanoutStep.sheet.rows ∧
          ∃ r ∈ fanoutPriors, ∀ j ∈ fanoutPrev.joins, getKey cand j = getKey r j :=
  mergeStep_fanout fanoutAcc fanoutPrev fanoutStep fanoutRow fanoutPriors
    (by decide) (by decide)

/-- C4: for a non-empty list of join steps (with the step names distinct, as
they serve as keys), the merged sheet has exactly one row per record of the
first table, every merged row's key list is exactly the step names in
processing order, and every post-seed step's name holds a (possibly empty)
list of matched records, so a row with zero matches is kept with an empty
list rather than omitted; the statement quantifies over arbitrary step lists,
so it applies to every prefix of a longer pipeline as well. -/
theorem mergeSheets_invariants (s : SheetQuery) (rest : List SheetQuery)
    (hnd : ((s :: rest).map SheetQuery.name).Nodup) :
    (mergeSheets (s :: rest)).rows.length = s.sheet.rows.length ∧
    (∀ row ∈ (mergeSheets (s :: rest)).rows,
      row.map Prod.fst = (s :: rest).map SheetQuery.name) ∧
    (∀ row ∈ (mergeSheets (s :: rest)).rows, ∀ q ∈ rest,
      ∃ l, getKey row q.name = some (MVal.matches l)) := by
  have hinit : mergeSheets (s :: rest) = (rest.foldl mergeStep
      ({ headers := setKey [] s.name s.sheet.headers,
         rows := s.sheet.rows.map (fun r => [(s.name, MVal.seed r)]) }, some s)).1 := rfl
  refine ⟨?_, ?_, ?_⟩
  · rw [hinit, mergeFold_rows_length]
    simp
  · rw [hinit]
    intro row hrow
    have := mergeFold_keys rest _ s [s.name] (by simpa using hnd)
      (by
        intro r hr
        obtain ⟨r0, -, rfl⟩ := List.mem_map.mp hr
        rfl) row hrow
    simpa using this
  · rw [hinit]
    intro row hrow q hq
    exact mergeFold_vals rest _ s [] (by simp) row hrow q.name
      (by simpa using List.mem_map_of_mem SheetQuery.name hq)

def zeroSeed : SheetQuery :=
  { sheet := { headers := ["a"], rows := [[("a", "1")]] }, joins := ["a"], name := "s" }

def zeroNext : SheetQuery :=
  { sheet := { headers := ["a"], rows := [[("a", "2")]] }, joins := [], name := "q" }

theorem mergeSheets_invariants_witness :
    ((mergeSheets [zeroSeed, zeroNext]).rows.length = zeroSeed.sheet.rows.length ∧
      (∀ row ∈ (mergeSheets [zeroSeed, zeroNext]).rows,
        row.map Prod.fst = [zeroSeed, zeroNext].map SheetQuery.name) ∧
      (∀ row ∈ (mergeSheets [zeroSeed, zeroNext]).rows, ∀ q ∈ [zeroNext],
        ∃ l, getKey row q.name = some (MVal.matches l))) ∧
    (mergeSheets [zeroSeed, zeroNext]).rows =
      [[("s", MVal.seed [("a", "1")]), ("q", MVal.matches [])]] :=
  ⟨mergeSheets_invariants zeroSeed [zeroNext] (by decide), by decide⟩

def missingSeed : SheetQuery :=
  { sheet := { headers := ["a"], rows := [[("a", "1")]] }, joins := ["z"], name := "s0" }

def missingNext : SheetQuery :=
  { sheet := { headers := ["b"], rows := [[("b", "2")]] }, joins := [], name := "s1" }

/-- C6 counterexample: the seed record lacks the join column z, yet the step
does not produce an empty match list: the candidate record also lacks z, both
reads are undefined, strict equality holds and the whole table matches. -/
theorem mergeSheets_missing_join_counterexample :
    (mergeSheets [missingSeed, missingNext]).rows =
      [[("s0", MVal.seed [("a", "1")]), ("s1", MVal.matches [[("b", "2")]])]] ∧
    (mergeSheets [missingSeed, missingNext]).rows ≠
      [[("s0", MVal.seed [("a", "1")]), ("s1", MVal.matches [])]] := by
  decide

/-- C6 amended: a join column absent from the previous step's record(s) reads
undefined; the filter then rejects every candidate holding an actual string
value for that column (undefined never strictly equals a string), so when
every record of the step's table carries a value for the column the step
yields an empty match list under its name, with no error raised; a candidate
record that also lacks the column, however, compares undefined with undefined
and can still match. -/
theorem mergeSheets_missing_join_amended (prev sq : SheetQuery) (row : MergedRow)
    (j : String) (hj : j ∈ prev.joins) :
    (∀ r : Record, getKey row prev.name = some (MVal.seed r) → getKey r j = none →
      ∀ cand : Record, (getKey cand j).isSome → joinRowFilter prev row cand = false) ∧
    (∀ rs : List Record, getKey row prev.name = some (MVal.matches rs) →
      (∀ r ∈ rs, getKey r j = none) →
      ∀ cand : Record, (getKey cand j).isSome → joinRowFilter prev row cand = false) ∧
    ((∀ cand ∈ sq.sheet.rows, joinRowFilter prev row cand = false) →
      getKey (joinRow prev sq row) sq.name = some (MVal.matches [])) := by
  have hgroup : ∀ (r cand : Record), getKey r j = none → (getKey cand j).isSome →
      (createJoinMapper prev.joins r).all (fun p => getKey cand p.1 == p.2) = false := by
    intro r cand hr hcand
    rw [Bool.eq_false_iff]
    intro hall
    have hmem : (j, getKey r j) ∈ createJoinMapper prev.joins r :=
      List.mem_map_of_mem _ hj
    have hpair := List.all_eq_true.mp hall _ hmem
    rw [hr, beq_iff_eq] at hpair
    rw [hpair] at hcand
    simp at hcand
  refine ⟨?_, ?_, ?_⟩
  · intro r hprev hr cand hcand
    unfold joinRowFilter
    rw [hprev]
    simp only [createQueryFilter, List.any_eq_true, List.mem_singleton]
    simp [hgroup r cand hr hcand]
  · intro rs hprev hall cand hcand
    unfold joinRowFilter
    rw [hprev]
    simp only [createQueryFilter]
    rw [Bool.eq_false_iff]
    intro hany
    obtain ⟨g, hg, hgt⟩ := List.any_eq_true.mp hany
    obtain ⟨r, hr, rfl⟩ := List.mem_map.mp hg
    rw [hgroup r cand (hall r hr) hcand] at hgt
    exact Bool.noConfusion hgt
  · intro hall
    have hfil : sq.sheet.rows.filter (joinRowFilter prev row) = [] := by
      rw [List.filter_eq_nil]
      intro a ha
      rw [hall a ha]
      exact Bool.noConfusion
    rw [joinRow, hfil, getKey_setKey_self]

def missingNextVal : SheetQuery :=
  { sheet := { headers := ["z"], rows := [[("z", "9")]] }, joins := [], name := "s1" }

theorem mergeSheets_missing_join_amended_witness :
    joinRowFilter missingSeed [("s0", MVal.seed [("a", "1")])] [("z", "9")] = false ∧
    getKey (joinRow missingSeed missingNextVal [("s0", MVal.seed [("a", "1")])])
      missingNextVal.name = some (MVal.matches []) := by
  have h := mergeSheets_missing_join_amended missingSeed missingNextVal
    [("s0", MVal.seed [("a", "1")])] "z" (by decide)
  refine ⟨h.1 [("a", "1")] (by decide) (by decide) [("z", "9")] (by decide), ?_⟩
  apply h.2.2
  intro cand hcand
  have hc : cand = [("z", "9")] := by simpa [missingNextVal] using hcand
  subst hc
  exact h.1 [("a", "1")] (by decide) (by decide) _ (by decide)

/-- C8: the merge is pure copy-on-write: each step maps the accumulated rows
through joinRow without touching the input tables, the emitted row is the
input row's bindings unchanged plus the new key appended at the end, and
re-running the merge on the same queries yields a structurally equal merged
sheet. -/
theorem mergeSheets_copy_on_write (prev sq : SheetQuery) (acc : MergedSheet)
    (row : MergedRow) (h : sq.name ∉ row.map Prod.fst) :
    (mergeStep (acc, some prev) sq).1.rows = acc.rows.map (joinRow prev sq) ∧
    joinRow prev sq row =
      row ++ [(sq.name, MVal.matches (sq.sheet.rows.filter (joinRowFilter prev row)))] ∧
    ∀ qs : List SheetQuery, mergeSheets qs = mergeSheets qs :=
  ⟨rfl, setKey_of_not_mem _ _ _ h, fun _ => rfl⟩

theorem mergeSheets_copy_on_write_witness :
    ("q" : String) ∉ ([("p", MVal.seed [("a", "1")])] : MergedRow).map Prod.fst ∧
    joinRow ⟨⟨[], []⟩, ["a"], "p"⟩ ⟨⟨["a"], [[("a", "1")]]⟩, [], "q"⟩
        [("p", MVal.seed [("a", "1")])] =
      [("p", MVal.seed [("a", "1")])] ++
        [("q", MVal.matches ([[("a", "1")]].filter
          (joinRowFilter ⟨⟨[], []⟩, ["a"], "p"⟩ [("p", MVal.seed [("a", "1")])])))] :=
  ⟨by decide,
    (mergeSheets_copy_on_write ⟨⟨[], []⟩, ["a"], "p"⟩ ⟨⟨["a"], [[("a", "1")]]⟩, [], "q"⟩
      ⟨[], []⟩ [("p", MVal.seed [("a", "1")])] (by decide)).2.1⟩

theorem convertRowToObj_mismatch_witness :
    getKey (convertRowToObj ["a"] ["1", "2"]) "undefined" = some "2" ∧
      getKey (convertRowToObj ["a", "b"] ["1"]) "b" = none := by
  constructor
  · rw [(convertRowToObj_mismatch ["a"] ["1", "2"]).1 (by decide)]
    decide
  · exact (convertRowToObj_mismatch ["a", "b"] ["1"]).2 "b" (by decide) (by decide) (by decide)

end Slcsp
